import Mathlib

/-!
Verification of `tap-firestore` (`src/tap_firestore/streams.py`,
`src/tap_firestore/tap.py`).

The development shallowly embeds the document-extraction engine of the
tap:

* `StoreValue` is the closed tagged union of Firestore-native values that
  `FirestoreStream._convert_value` dispatches on by `isinstance` /
  `hasattr` duck typing.  Each constructor corresponds to one branch of
  the Python dispatch; Python floats are carried as an abstract `Int`
  payload (their numeric value never matters to the code under study).
* `convert_value` embeds `FirestoreStream._convert_value`.
* `infer_type`, `inferFieldTypes`, `build_schema_from_config`,
  `discover_schema` and `schemaOnce` embed the schema-inference and
  schema-caching logic (`_infer_type`, `_discover_schema`,
  `_build_schema_from_config`, the `schema` property).
* `resolveCredentialSource` embeds the credential-precedence chain of
  `_get_firestore_client`.
* `FsDoc`, `queryBatch`, `processBatch`, `getRecordsLoop` and
  `get_records` embed the pagination loop of
  `FirestoreStream.get_records`, with the Firestore query semantics
  (`where` filter, `order_by("__name__")`, `start_after`, `limit`)
  modelled over a collection listed in `__name__` (document id) order.
  The `while True` loop is embedded with explicit fuel because the
  Python loop is not structurally terminating.
-/

/-- Closed tagged union of the store-native values recognised by
`FirestoreStream._convert_value`.  One constructor per dispatch branch:
`vNull` for `None`, `vSentinel` for the server-timestamp sentinel,
`vTimestamp` for any value with an `isoformat` method (carried as its
ISO string), `vGeoPoint` for latitude/longitude pairs, `vRef` for
document references (path plus id), `vDict`/`vList`/`vTuple`/`vBytes`
for the composite types, `vCustom` for any other object exposing
`__dict__` (its public attributes, its `str()` form, and whether
introspection succeeds), and plain scalars `vBool`/`vInt`/`vFloat`/
`vStr` which the Python code passes through unchanged. -/
inductive StoreValue where
  | vNull
  | vSentinel
  | vBool (b : Bool)
  | vInt (n : Int)
  | vFloat (payload : Int)
  | vStr (s : String)
  | vTimestamp (iso : String)
  | vGeoPoint (lat lon : Int)
  | vRef (path : String) (rid : String)
  | vDict (entries : List (String × StoreValue))
  | vList (items : List StoreValue)
  | vTuple (items : List StoreValue)
  | vBytes (bs : List Nat)
  | vCustom (attrs : List (String × StoreValue)) (strForm : String) (introspectOk : Bool)

/-- Error policy of Python `bytes.decode`: `dropInvalid` models
`errors="ignore"` (invalid sequences vanish), `replaceInvalid` models
`errors="replace"` (invalid sequences become U+FFFD). -/
inductive Utf8ErrorMode where
  | dropInvalid
  | replaceInvalid

/-- Output emitted for one invalid byte under the given error policy. -/
def utf8ErrorOut : Utf8ErrorMode → List Char
  | .dropInvalid => []
  | .replaceInvalid => ['�']

/-- Lower bound of the byte following a multi-byte lead, per the UTF-8
validation table (rules out overlong forms and code points beyond
U+10FFFF). -/
def utf8SecondLo (b : Nat) : Nat :=
  if b = 224 then 160 else if b = 240 then 144 else 128

/-- Upper bound of the byte following a multi-byte lead, per the UTF-8
validation table (rules out surrogates and code points beyond
U+10FFFF). -/
def utf8SecondHi (b : Nat) : Nat :=
  if b = 237 then 159 else if b = 244 then 143 else 191

/-- Decoder action on one byte in lead position: the characters emitted
(an ASCII character, or the error output for an invalid lead) and the
pending multi-byte state (accumulated code-point bits, remaining
continuation count, and admissible range of the next byte). -/
def leadStep (mode : Utf8ErrorMode) (b : Nat) : List Char × Option (Nat × Nat × Nat × Nat) :=
  if b < 128 then ([Char.ofNat b], none)
  else if 194 ≤ b && b ≤ 223 then ([], some (b - 192, 1, utf8SecondLo b, utf8SecondHi b))
  else if 224 ≤ b && b ≤ 239 then ([], some (b - 224, 2, utf8SecondLo b, utf8SecondHi b))
  else if 240 ≤ b && b ≤ 244 then ([], some (b - 240, 3, utf8SecondLo b, utf8SecondHi b))
  else (utf8ErrorOut mode, none)

/-- UTF-8 decoding loop: with no pending sequence, each byte is handled
by `leadStep`; with a pending sequence, an in-range byte extends it (the
last one emits the code point), while an out-of-range byte aborts it
with `utf8ErrorOut` and is reconsidered as a fresh lead.  Input ending
inside a pending sequence contributes a final `utf8ErrorOut`. -/
def utf8DecodeLoop (mode : Utf8ErrorMode) :
    Option (Nat × Nat × Nat × Nat) → List Nat → List Char
  | none, [] => []
  | some _, [] => utf8ErrorOut mode
  | none, b :: rest =>
      (leadStep mode b).1 ++ utf8DecodeLoop mode (leadStep mode b).2 rest
  | some (acc, need, lo, hi), b :: rest =>
      if lo ≤ b && b ≤ hi then
        if need ≤ 1 then
          Char.ofNat (acc * 64 + (b - 128)) :: utf8DecodeLoop mode none rest
        else
          utf8DecodeLoop mode (some (acc * 64 + (b - 128), need - 1, 128, 191)) rest
      else
        utf8ErrorOut mode ++
          (leadStep mode b).1 ++ utf8DecodeLoop mode (leadStep mode b).2 rest

/-- UTF-8 decoder parametrised by the error policy, embedding Python
`bytes.decode("utf-8", errors=...)`: well-formed sequences decode to
their code point, anything invalid contributes `utf8ErrorOut` and
decoding resumes at the offending byte. -/
def utf8DecodeBytes (mode : Utf8ErrorMode) (bs : List Nat) : List Char :=
  utf8DecodeLoop mode none bs

/-- Python `k.startswith("_")`. -/
def startsWithUnderscore (s : String) : Bool :=
  match s.data with
  | [] => false
  | c :: _ => c = '_'

mutual

/-- Embedding of `FirestoreStream._convert_value` (streams.py 278-317),
one equation per `isinstance`/`hasattr` branch of the Python dispatch:
`None → None`; server-timestamp sentinel → `None`; `isoformat` values →
their ISO string; GeoPoint → `{latitude, longitude}`; DocumentReference
→ its path; dict/list/tuple → recursive conversion (tuples become
lists); bytes → `decode("utf-8", errors="ignore")`; any other object
with `__dict__` → dict of its non-underscore attributes, or `str(value)`
if introspection raises; remaining scalars pass through unchanged. -/
def convert_value : StoreValue → StoreValue
  | .vNull => .vNull
  | .vSentinel => .vNull
  | .vTimestamp iso => .vStr iso
  | .vGeoPoint lat lon => .vDict [("latitude", .vFloat lat), ("longitude", .vFloat lon)]
  | .vRef path _ => .vStr path
  | .vDict es => .vDict (convert_entries es)
  | .vList xs => .vList (convert_items xs)
  | .vTuple xs => .vList (convert_items xs)
  | .vBytes bs => .vStr (String.mk (utf8DecodeBytes .dropInvalid bs))
  | .vCustom attrs strForm ok =>
      if ok then .vDict (convert_attrs attrs) else .vStr strForm
  | .vBool b => .vBool b
  | .vInt n => .vInt n
  | .vFloat q => .vFloat q
  | .vStr s => .vStr s

/-- The dict comprehension `{k: self._convert_value(v) for k, v in value.items()}`. -/
def convert_entries : List (String × StoreValue) → List (String × StoreValue)
  | [] => []
  | (k, v) :: rest => (k, convert_value v) :: convert_entries rest

/-- The list comprehension `[self._convert_value(item) for item in value]`. -/
def convert_items : List StoreValue → List StoreValue
  | [] => []
  | v :: rest => convert_value v :: convert_items rest

/-- The comprehension over `value.__dict__.items()` filtering out keys
that start with an underscore. -/
def convert_attrs : List (String × StoreValue) → List (String × StoreValue)
  | [] => []
  | (k, v) :: rest =>
      if startsWithUnderscore k then convert_attrs rest
      else (k, convert_value v) :: convert_attrs rest

end

mutual

/-- A value is JSON-safe when it is built only from null, booleans,
integers, floats, strings, and nested plain dicts/lists of such values
(spec §3, `NormalizedRecord`). -/
def jsonSafe : StoreValue → Bool
  | .vNull => true
  | .vBool _ => true
  | .vInt _ => true
  | .vFloat _ => true
  | .vStr _ => true
  | .vDict es => jsonSafeEntries es
  | .vList xs => jsonSafeItems xs
  | _ => false

/-- All values of an entry list are JSON-safe. -/
def jsonSafeEntries : List (String × StoreValue) → Bool
  | [] => true
  | (_, v) :: rest => jsonSafe v && jsonSafeEntries rest

/-- All members of an item list are JSON-safe. -/
def jsonSafeItems : List StoreValue → Bool
  | [] => true
  | v :: rest => jsonSafe v && jsonSafeItems rest

end

mutual

/-- Every branch of the normalizer produces a JSON-safe value. -/
theorem convert_value_safe : (v : StoreValue) → jsonSafe (convert_value v) = true
  | .vNull => rfl
  | .vSentinel => rfl
  | .vBool _ => rfl
  | .vInt _ => rfl
  | .vFloat _ => rfl
  | .vStr _ => rfl
  | .vTimestamp _ => rfl
  | .vGeoPoint _ _ => rfl
  | .vRef _ _ => rfl
  | .vDict es => by simp [convert_value, jsonSafe, convert_entries_safe es]
  | .vList xs => by simp [convert_value, jsonSafe, convert_items_safe xs]
  | .vTuple xs => by simp [convert_value, jsonSafe, convert_items_safe xs]
  | .vBytes _ => rfl
  | .vCustom attrs s ok => by
      by_cases h : ok = true
      · simp [convert_value, h, jsonSafe, convert_attrs_safe attrs]
      · simp at h
        simp [convert_value, h, jsonSafe]

/-- Converted entry lists are entrywise JSON-safe. -/
theorem convert_entries_safe : (es : List (String × StoreValue)) →
    jsonSafeEntries (convert_entries es) = true
  | [] => rfl
  | (k, v) :: rest => by
      simp [convert_entries, jsonSafeEntries, convert_value_safe v, convert_entries_safe rest]

/-- Converted item lists are memberwise JSON-safe. -/
theorem convert_items_safe : (xs : List StoreValue) →
    jsonSafeItems (convert_items xs) = true
  | [] => rfl
  | v :: rest => by
      simp [convert_items, jsonSafeItems, convert_value_safe v, convert_items_safe rest]

/-- Converted attribute objects are entrywise JSON-safe. -/
theorem convert_attrs_safe : (attrs : List (String × StoreValue)) →
    jsonSafeEntries (convert_attrs attrs) = true
  | [] => rfl
  | (k, v) :: rest => by
      by_cases h : startsWithUnderscore k
      · simp [convert_attrs, h, convert_attrs_safe rest]
      · simp [convert_attrs, h, jsonSafeEntries, convert_value_safe v,
          convert_attrs_safe rest]

end

mutual

/-- The normalizer is the identity on JSON-safe values. -/
theorem convert_value_id : (v : StoreValue) → jsonSafe v = true → convert_value v = v
  | .vNull, _ => rfl
  | .vBool _, _ => rfl
  | .vInt _, _ => rfl
  | .vFloat _, _ => rfl
  | .vStr _, _ => rfl
  | .vSentinel, h => nomatch h
  | .vTimestamp _, h => nomatch h
  | .vGeoPoint _ _, h => nomatch h
  | .vRef _ _, h => nomatch h
  | .vTuple _, h => nomatch h
  | .vBytes _, h => nomatch h
  | .vCustom _ _ _, h => nomatch h
  | .vDict es, h => congrArg StoreValue.vDict (convert_entries_id es h)
  | .vList xs, h => congrArg StoreValue.vList (convert_items_id xs h)

/-- Entry-list conversion is the identity on JSON-safe entry lists. -/
theorem convert_entries_id : (es : List (String × StoreValue)) →
    jsonSafeEntries es = true → convert_entries es = es
  | [], _ => rfl
  | (k, v) :: rest, h => by
      have h' : jsonSafe v = true ∧ jsonSafeEntries rest = true := by
        simpa [jsonSafeEntries] using h
      simp [convert_entries, convert_value_id v h'.1, convert_entries_id rest h'.2]

/-- Item-list conversion is the identity on JSON-safe item lists. -/
theorem convert_items_id : (xs : List StoreValue) →
    jsonSafeItems xs = true → convert_items xs = xs
  | [], _ => rfl
  | v :: rest, h => by
      have h' : jsonSafe v = true ∧ jsonSafeItems rest = true := by
        simpa [jsonSafeItems] using h
      simp [convert_items, convert_value_id v h'.1, convert_items_id rest h'.2]

end

/-- Singer type tags produced by `_infer_type` /
`_type_string_to_singer_type` (`th.StringType`, `th.IntegerType`,
`th.NumberType`, `th.BooleanType`, `th.DateTimeType`, `th.ObjectType()`,
`th.ArrayType(item)`). -/
inductive TypeTag where
  | string
  | integer
  | number
  | boolean
  | datetime
  | object
  | array (item : TypeTag)
deriving DecidableEq, Repr

/-- Embedding of `FirestoreStream._infer_type` (streams.py 53-81), one
equation per dispatch branch in source order: `None` → string, bool →
boolean, int → integer, float → number, `isoformat` values → datetime,
dict → object, non-empty list → array of the first element's inferred
type, empty list → array of string, anything else → string. -/
def infer_type : StoreValue → TypeTag
  | .vNull => .string
  | .vBool _ => .boolean
  | .vInt _ => .integer
  | .vFloat _ => .number
  | .vTimestamp _ => .datetime
  | .vDict _ => .object
  | .vList [] => .array .string
  | .vList (x :: _) => .array (infer_type x)
  | _ => .string

/-- Result of `doc.to_dict()`: `none` when the document body is absent,
otherwise the body's fields in iteration (insertion) order. -/
abbrev DocDict := Option (List (String × StoreValue))

/-- First value bound to a field name in a field list (Python dict
membership / subscript, insertion order). -/
def lookupField : List (String × StoreValue) → String → Option StoreValue
  | [], _ => none
  | (k, v) :: rest, f => if k = f then some v else lookupField rest f

/-- First type bound to a field name in a field-type list. -/
def lookupTag : List (String × TypeTag) → String → Option TypeTag
  | [], _ => none
  | (k, t) :: rest, f => if k = f then some t else lookupTag rest f

/-- The inner loop of `_discover_schema` (streams.py 172-174): for each
key of one document, `if key not in field_types: field_types[key] =
self._infer_type(value)` (insertion at the end, first occurrence
wins). -/
def addDocFields : List (String × TypeTag) → List (String × StoreValue) → List (String × TypeTag)
  | ft, [] => ft
  | ft, (k, v) :: rest =>
    if (lookupTag ft k).isSome then addDocFields ft rest
    else addDocFields (ft ++ [(k, infer_type v)]) rest

/-- The outer sampling loop of `_discover_schema` (streams.py 169-174)
starting from a given accumulated `field_types`: documents whose
`to_dict()` is `None` or empty (`if doc_dict:` falsy) are skipped. -/
def inferFieldTypesFrom : List (String × TypeTag) → List DocDict → List (String × TypeTag)
  | ft, [] => ft
  | ft, d :: rest =>
    match d with
    | some dd => if dd.isEmpty then inferFieldTypesFrom ft rest
                 else inferFieldTypesFrom (addDocFields ft dd) rest
    | none => inferFieldTypesFrom ft rest

/-- `field_types` accumulated over the whole sample (starts empty). -/
def inferFieldTypes (docs : List DocDict) : List (String × TypeTag) :=
  inferFieldTypesFrom [] docs

/-- The value bound to a field in the first sampled document (in sample
order) that contains that field, if any. -/
def firstFieldValue : List DocDict → String → Option StoreValue
  | [], _ => none
  | some dd :: rest, f =>
    match lookupField dd f with
    | some v => some v
    | none => firstFieldValue rest f
  | none :: rest, f => firstFieldValue rest f

/-- Per-collection stream configuration (constructor arguments of
`FirestoreStream.__init__`, streams.py 19-46). `limit` is carried as a
Python integer (`Int`); `schema_config` is the optional field-name →
type-string mapping in insertion order. -/
structure StreamConfig where
  replication_key : Option String
  replication_key_type : String
  limit : Option Int
  batch_size : Nat
  schema_config : Option (List (String × String))

/-- ASCII lowering of one character (Python `str.lower` restricted to
ASCII, which covers every type-tag string the table compares against). -/
def charLower (c : Char) : Char :=
  if 'A' ≤ c ∧ c ≤ 'Z' then Char.ofNat (c.toNat + 32) else c

/-- Python `type_str.lower()` (ASCII). -/
def lowerStr (s : String) : String := String.mk (s.data.map charLower)

/-- The fixed `type_map` dict of `_type_string_to_singer_type`
(streams.py 92-100), in insertion order. -/
def type_map : List (String × TypeTag) :=
  [("string", .string), ("integer", .integer), ("number", .number),
   ("boolean", .boolean), ("datetime", .datetime), ("object", .object),
   ("array", .array .string)]

/-- Embedding of `FirestoreStream._type_string_to_singer_type`
(streams.py 83-101): `type_map.get(type_str.lower(), th.StringType)` -
the table looked up on the lowered string, defaulting to
`th.StringType` for unrecognized tag strings. -/
def type_string_to_singer_type (typeStr : String) : TypeTag :=
  (lookupTag type_map (lowerStr typeStr)).getD .string

/-- Declared schema: ordered property list plus the
`additionalProperties` flag. -/
structure SchemaDict where
  properties : List (String × TypeTag)
  additionalProperties : Bool
deriving Repr

/-- Python dict assignment `properties[k] = t`: replace in place if the
key exists, else append. -/
def setProp : List (String × TypeTag) → String → TypeTag → List (String × TypeTag)
  | [], k, t => [(k, t)]
  | (k', t') :: rest, k, t =>
    if k' = k then (k, t) :: rest else (k', t') :: setProp rest k t

/-- The seed `properties` dict shared by `_build_schema_from_config` and
`_discover_schema` (streams.py 109-119 and 141-151): `_id`,
`_sdc_extracted_at`, and the replication key typed by
`replication_key_type`. -/
def seedProperties (cfg : StreamConfig) : List (String × TypeTag) :=
  let props := [("_id", TypeTag.string), ("_sdc_extracted_at", TypeTag.datetime)]
  match cfg.replication_key with
  | some rk =>
      setProp props rk
        (if cfg.replication_key_type = "timestamp" then .datetime else .string)
  | none => props

/-- Embedding of `FirestoreStream._build_schema_from_config`
(streams.py 103-133): seed properties, then every configured field
mapped through the type table (`if self.schema_config:` is a truthiness
test, so `None` and the empty mapping both skip the loop);
`additionalProperties` is always set. -/
def build_schema_from_config (cfg : StreamConfig) : SchemaDict :=
  let props := seedProperties cfg
  let props :=
    match cfg.schema_config with
    | some sc =>
        if sc.isEmpty then props
        else sc.foldl (fun p kv => setProp p kv.1 (type_string_to_singer_type kv.2)) props
    | none => props
  ⟨props, true⟩

/-- Embedding of `FirestoreStream._discover_schema` (streams.py
135-192) on a successful sample: seed properties, then
`properties.update(field_types)` with the types inferred from the
sampled documents (the sample is `collection.limit(10).stream()`;
`sampleDocs` stands for the `to_dict()` results of those documents).
`additionalProperties` is always set. -/
def discover_schema (cfg : StreamConfig) (sampleDocs : List DocDict) : SchemaDict :=
  let props := seedProperties cfg
  let props := (inferFieldTypes sampleDocs).foldl (fun p kv => setProp p kv.1 kv.2) props
  ⟨props, true⟩

/-- Embedding of the `schema` property (streams.py 194-211) as one step
of the `_schema_cache` memo: given the current cache, return the schema,
the new cache, and whether collection sampling was invoked on this call.
A cached schema is returned as-is; otherwise `if self.schema_config:`
(truthiness: non-`None` and non-empty) selects
`_build_schema_from_config`, else `_discover_schema` (which samples). -/
def schemaOnce (cfg : StreamConfig) (sampleDocs : List DocDict) (cache : Option SchemaDict) :
    SchemaDict × Option SchemaDict × Bool :=
  match cache with
  | some s => (s, some s, false)
  | none =>
    match cfg.schema_config with
    | some sc =>
        if sc.isEmpty then
          let s := discover_schema cfg sampleDocs
          (s, some s, true)
        else
          let s := build_schema_from_config cfg
          (s, some s, false)
    | none =>
        let s := discover_schema cfg sampleDocs
        (s, some s, true)

/-- How `_get_firestore_client` ends up constructing its credentials:
from the base64 config value, from the inline JSON config value, from
the credentials file, or as default ambient credentials
(`credentials=None`). -/
inductive CredSource where
  | fromBase64
  | fromJson
  | fromFile
  | ambient
deriving DecidableEq, Repr

/-- Python truthiness of an optional string config entry (`None` and
`""` are falsy). -/
def truthyStr : Option String → Bool
  | none => false
  | some s => s ≠ ""

/-- Embedding of the credential-selection chain of
`FirestoreStream._get_firestore_client` (streams.py 231-271): the
config keys `credentials_path`, `credentials_json`,
`credentials_base64` are read, then the `if`/`elif` chain tests
`credentials_base64` first, then `credentials_json`, then
`credentials_path`, and falls back to default credentials. -/
def resolveCredentialSource (credentials_path credentials_json credentials_base64 :
    Option String) : CredSource :=
  if truthyStr credentials_base64 then .fromBase64
  else if truthyStr credentials_json then .fromJson
  else if truthyStr credentials_path then .fromFile
  else .ambient

/-- One Firestore document as seen by the pagination loop: its document
id (`__name__`, modelled as a `Nat` so that the store's `__name__`
ordering is the numeric order) and the result of `to_dict()` (`none`
when the body is absent). -/
structure FsDoc where
  docId : Nat
  body : Option (List (String × StoreValue))

/-- A named field of a document (`None`-bodied documents have no
fields). -/
def getField (d : FsDoc) (k : String) : Option StoreValue :=
  d.body.bind (fun b => lookupField b k)

/-- Firestore `>` comparison as used by the `where` filter: values of
the same orderable kind compare by their payload order; everything else
does not satisfy the filter. -/
def fsGt : StoreValue → StoreValue → Bool
  | .vInt a, .vInt b => b < a
  | .vFloat a, .vFloat b => b < a
  | .vStr a, .vStr b => b < a
  | .vTimestamp a, .vTimestamp b => b < a
  | _, _ => false

/-- Whether a document satisfies the optional base `where` filter
`FieldFilter(replication_key, ">", starting_value)` (streams.py
345-349): documents without the field never match. -/
def passesWhere (filt : Option (String × StoreValue)) (d : FsDoc) : Bool :=
  match filt with
  | none => true
  | some (k, v) =>
    match getField d k with
    | some fv => fsGt fv v
    | none => false

/-- Whether a document lies after the `start_after(last_doc)` position
in the `order_by("__name__")` ordering. -/
def afterDoc (ld : Option Nat) (d : FsDoc) : Bool :=
  match ld with
  | none => true
  | some i => i < d.docId

/-- One batch query of the loop (streams.py 360-378): the base filter,
`order_by("__name__")`, `start_after(last_doc)` and `limit(batch_limit)`
applied to the collection, whose documents `store` lists in `__name__`
order. -/
def queryBatch (store : List FsDoc) (filt : Option (String × StoreValue))
    (ld : Option Nat) (lim : Nat) : List FsDoc :=
  (((store.filter (passesWhere filt)).filter (afterDoc ld)).take lim)

/-- The per-batch document loop (streams.py 390-408) threading
`total_extracted` and `last_doc`: documents whose `to_dict()` is `None`
are skipped (`continue`); every other document is yielded, increments
`total_extracted`, and becomes `last_doc`.  Returns (yielded documents,
new total, new last_doc). -/
def processBatch : List FsDoc → Nat → Option Nat → List FsDoc × Nat × Option Nat
  | [], total, ld => ([], total, ld)
  | d :: rest, total, ld =>
    match d.body with
    | none => processBatch rest total ld
    | some _ =>
      let r := processBatch rest (total + 1) (some d.docId)
      (d :: r.1, r.2)

/-- The `batch_limit` computation at the top of each loop iteration
(streams.py 367-375): `none` means the `remaining <= 0` break fires
before any query is issued; otherwise the requested size is
`batch_size`, shrunk to the remaining quota when `self.limit` is truthy
(`None` and `0` are falsy). -/
def batchLimitFor (batchSize : Nat) (limitCfg : Option Int) (total : Nat) : Option Nat :=
  match limitCfg with
  | some l =>
      if l ≠ 0 then
        if l - (total : Int) ≤ 0 then none
        else some (min batchSize (l - (total : Int)).toNat)
      else some batchSize
  | none => some batchSize

/-- Outcome of a pagination run: the yielded documents in order, the
`batch_limit` requested by each issued query (so `requests.length` is
the number of batch queries), the final `total_extracted` and
`last_doc`, and whether the loop reached one of its `break`s
(`completed = false` only when the fuel ran out first). -/
structure RunResult where
  docs : List FsDoc
  requests : List Nat
  total : Nat
  lastDoc : Option Nat
  completed : Bool

/-- Embedding of the `while True` pagination loop of
`FirestoreStream.get_records` (streams.py 360-412), with explicit fuel:
each iteration computes `batch_limit` (breaking first if the quota is
exhausted), issues one batch query, breaks on an empty batch, processes
the batch (skipping absent bodies), and breaks when the batch returned
fewer documents than requested. -/
def getRecordsLoop (store : List FsDoc) (filt : Option (String × StoreValue))
    (batchSize : Nat) (limitCfg : Option Int) :
    Nat → Nat → Option Nat → RunResult
  | 0, total, ld => ⟨[], [], total, ld, false⟩
  | fuel + 1, total, ld =>
    match batchLimitFor batchSize limitCfg total with
    | none => ⟨[], [], total, ld, true⟩
    | some bl =>
      let docs := queryBatch store filt ld bl
      if docs.isEmpty then ⟨[], [bl], total, ld, true⟩
      else
        let p := processBatch docs total ld
        if docs.length < bl then ⟨p.1, [bl], p.2.1, p.2.2, true⟩
        else
          let r := getRecordsLoop store filt batchSize limitCfg fuel p.2.1 p.2.2
          ⟨p.1 ++ r.docs, bl :: r.requests, r.total, r.lastDoc, r.completed⟩

/-- Python truthiness of a `StoreValue` (`if starting_value:` in
streams.py 338). -/
def truthyVal : StoreValue → Bool
  | .vNull => false
  | .vSentinel => true
  | .vBool b => b
  | .vInt n => n ≠ 0
  | .vFloat q => q ≠ 0
  | .vStr s => s ≠ ""
  | .vTimestamp _ => true
  | .vGeoPoint _ _ => true
  | .vRef _ _ => true
  | .vDict es => ¬es.isEmpty
  | .vList xs => ¬xs.isEmpty
  | .vTuple xs => ¬xs.isEmpty
  | .vBytes bs => ¬bs.isEmpty
  | .vCustom _ _ _ => true

/-- Python `s.replace("Z", "+00:00")` (every occurrence of the
single-character needle is replaced). -/
def isoZFix (s : String) : String :=
  String.mk (s.data.foldr (fun c acc => if c = 'Z' then "+00:00".data ++ acc else c :: acc) [])

/-- Embedding of `FirestoreStream.get_starting_replication_key_value`
(streams.py 422-442): the stored state value (a string or `None`); when
truthy and the key type is `timestamp` it is parsed back via
`datetime.fromisoformat(value.replace("Z", "+00:00"))` (the resulting
datetime is carried as `vTimestamp` of the fixed-up ISO string),
otherwise it is returned unchanged (as `vStr`). -/
def get_starting_replication_key_value (cfg : StreamConfig) (stateValue : Option String) :
    Option StoreValue :=
  match stateValue with
  | none => none
  | some s =>
      if s ≠ "" ∧ cfg.replication_key_type = "timestamp" then some (.vTimestamp (isoZFix s))
      else some (.vStr s)

/-- The base-filter construction of `get_records` (streams.py 331-349):
only when a replication key is configured is the starting value fetched,
and only when that value is truthy is the
`where(FieldFilter(replication_key, ">", starting_value))` filter
attached. -/
def buildBaseFilter (cfg : StreamConfig) (stateValue : Option String) :
    Option (String × StoreValue) :=
  match cfg.replication_key with
  | none => none
  | some k =>
    match get_starting_replication_key_value cfg stateValue with
    | some v => if truthyVal v then some (k, v) else none
    | none => none

/-- Embedding of `FirestoreStream.get_records` (streams.py 319-414):
build the base filter from the stored replication state, then run the
pagination loop from `total_extracted = 0`, `last_doc = None`. -/
def get_records (store : List FsDoc) (cfg : StreamConfig) (stateValue : Option String)
    (fuel : Nat) : RunResult :=
  getRecordsLoop store (buildBaseFilter cfg stateValue) cfg.batch_size cfg.limit fuel 0 none

/-- Proof-device reformulation of `getRecordsLoop`: instead of
re-filtering the store with `start_after(last_doc)` each iteration, it
walks the pending suffix directly with `take`/`drop`.
`loop_eq_view` proves it equal to `getRecordsLoop` when the store is
sorted by id and all bodies are present. -/
def loopView (batchSize : Nat) (limitCfg : Option Int) :
    Nat → List FsDoc → Nat → Option Nat → RunResult
  | 0, _, total, ld => ⟨[], [], total, ld, false⟩
  | fuel + 1, pend, total, ld =>
    match batchLimitFor batchSize limitCfg total with
    | none => ⟨[], [], total, ld, true⟩
    | some bl =>
      let docs := pend.take bl
      if docs.isEmpty then ⟨[], [bl], total, ld, true⟩
      else
        let p := processBatch docs total ld
        if docs.length < bl then ⟨p.1, [bl], p.2.1, p.2.2, true⟩
        else
          let r := loopView batchSize limitCfg fuel (pend.drop bl) p.2.1 p.2.2
          ⟨p.1 ++ r.docs, bl :: r.requests, r.total, r.lastDoc, r.completed⟩

/-- The sequence of `batch_limit` values issued by a limited run with
`remaining` quota: query `i` requests `min batchSize (remaining - i *
batchSize)`, and `⌈remaining / batchSize⌉` queries are issued. -/
def requestsFor (batchSize remaining : Nat) : List Nat :=
  (List.range ((remaining + batchSize - 1) / batchSize)).map
    (fun i => min batchSize (remaining - i * batchSize))

/-- `last_doc` after processing one batch: the id of the last yielded
(body-present) document, or the incoming `last_doc` when the whole batch
was skipped. -/
def lastYield (ds : List FsDoc) (ld : Option Nat) : Option Nat :=
  match (ds.filter (fun d => d.body.isSome)).getLast? with
  | some d => some d.docId
  | none => ld

theorem lastYield_cons_none {d : FsDoc} {rest : List FsDoc} {ld : Option Nat}
    (hb : d.body = none) : lastYield (d :: rest) ld = lastYield rest ld := by
  simp [lastYield, List.filter_cons, hb]

theorem lastYield_cons_some {d : FsDoc} {rest : List FsDoc} {ld : Option Nat}
    {b : List (String × StoreValue)} (hb : d.body = some b) :
    lastYield (d :: rest) ld = lastYield rest (some d.docId) := by
  have hfil : (d :: rest).filter (fun x => x.body.isSome) =
      d :: rest.filter (fun x => x.body.isSome) := by
    rw [List.filter_cons]
    simp [hb]
  unfold lastYield
  rw [hfil, List.getLast?_cons]
  cases hq : (rest.filter (fun x => x.body.isSome)).getLast? <;> rfl

theorem processBatch_eq : ∀ (ds : List FsDoc) (total : Nat) (ld : Option Nat),
    processBatch ds total ld =
      (ds.filter (fun d => d.body.isSome),
       total + (ds.filter (fun d => d.body.isSome)).length,
       lastYield ds ld)
  | [], total, ld => by simp [processBatch, lastYield]
  | d :: rest, total, ld => by
    cases hb : d.body with
    | none =>
        simp [processBatch, hb, processBatch_eq rest total ld,
          lastYield_cons_none hb, List.filter_cons]
    | some b =>
        rw [lastYield_cons_some hb]
        have hfil : (d :: rest).filter (fun x => x.body.isSome) =
            d :: rest.filter (fun x => x.body.isSome) := by
          simp [List.filter_cons, hb]
        rw [hfil]
        simp only [processBatch, hb, processBatch_eq rest (total + 1) (some d.docId)]
        simp only [Prod.mk.injEq, List.length_cons, true_and, and_true]
        omega

theorem mem_queryBatch {store : List FsDoc} {filt : Option (String × StoreValue)}
    {ld : Option Nat} {lim : Nat} {d : FsDoc} (h : d ∈ queryBatch store filt ld lim) :
    d ∈ store ∧ passesWhere filt d = true ∧ afterDoc ld d = true := by
  have h1 : d ∈ (store.filter (passesWhere filt)).filter (afterDoc ld) :=
    List.take_subset _ _ h
  have h2 := List.mem_filter.mp h1
  have h3 := List.mem_filter.mp h2.1
  exact ⟨h3.1, h3.2, h2.2⟩

theorem loop_docs_mem : ∀ (fuel : Nat) (store : List FsDoc)
    (filt : Option (String × StoreValue)) (B : Nat) (L : Option Int)
    (total : Nat) (ld : Option Nat) (d : FsDoc),
    d ∈ (getRecordsLoop store filt B L fuel total ld).docs →
    d ∈ store ∧ passesWhere filt d = true ∧ d.body.isSome = true
  | 0, store, filt, B, L, total, ld, d => by
      intro h
      simp [getRecordsLoop] at h
  | fuel + 1, store, filt, B, L, total, ld, d => by
      intro h
      rw [getRecordsLoop] at h
      cases hbl : batchLimitFor B L total with
      | none => rw [hbl] at h; simp at h
      | some bl =>
          rw [hbl] at h
          simp only [] at h
          by_cases he : (queryBatch store filt ld bl).isEmpty
          · simp [he] at h
          · simp only [he, if_false] at h
            have hbatch : ∀ e, e ∈ (processBatch (queryBatch store filt ld bl) total ld).1 →
                e ∈ store ∧ passesWhere filt e = true ∧ e.body.isSome = true := by
              intro e hme
              rw [processBatch_eq] at hme
              have hm := List.mem_filter.mp hme
              have hq := mem_queryBatch hm.1
              exact ⟨hq.1, hq.2.1, hm.2⟩
            by_cases hlt : (queryBatch store filt ld bl).length < bl
            · simp only [hlt, if_true] at h
              exact hbatch d h
            · simp only [hlt, if_false] at h
              rcases List.mem_append.mp h with hml | hmr
              · exact hbatch d hml
              · exact loop_docs_mem fuel store filt B L _ _ d hmr

/-- The store ordering assumed by the query model: documents listed in
strictly increasing `__name__` (id) order. -/
abbrev idSorted (s : List FsDoc) : Prop := s.Pairwise (fun a b => a.docId < b.docId)

theorem sorted_filter_gt_drop : ∀ (t : List FsDoc), idSorted t →
    ∀ (n : Nat) (h : n < t.length),
    t.filter (afterDoc (some (t.get ⟨n, h⟩).docId)) = t.drop (n + 1)
  | [], _, n, h => by simp at h
  | a :: rest, hp, 0, h => by
      have hpc := List.pairwise_cons.mp hp
      have hget : (a :: rest).get ⟨0, h⟩ = a := rfl
      rw [hget]
      have hfa : ¬ (afterDoc (some a.docId) a = true) := by
        simp [afterDoc]
      rw [List.filter_cons_of_neg hfa]
      rw [List.drop_succ_cons, List.drop_zero]
      apply List.filter_eq_self.mpr
      intro b hb
      simp only [afterDoc, decide_eq_true_eq]
      exact hpc.1 b hb
  | a :: rest, hp, n + 1, h => by
      have hpc := List.pairwise_cons.mp hp
      have hn : n < rest.length := by simpa using h
      have hget : (a :: rest).get ⟨n + 1, h⟩ = rest.get ⟨n, hn⟩ := rfl
      rw [hget]
      have hmem : rest.get ⟨n, hn⟩ ∈ rest := List.get_mem _ _ _
      have hfa : ¬ (afterDoc (some (rest.get ⟨n, hn⟩).docId) a = true) := by
        have hlt := hpc.1 _ hmem
        simp only [afterDoc, decide_eq_true_eq]
        omega
      rw [List.filter_cons_of_neg hfa]
      rw [List.drop_succ_cons]
      exact sorted_filter_gt_drop rest hpc.2 n hn

theorem getLast?_take_of_le {t : List FsDoc} {n : Nat} (h1 : 1 ≤ n) (h2 : n ≤ t.length)
    (hlt : n - 1 < t.length) :
    (t.take n).getLast? = some (t.get ⟨n - 1, hlt⟩) := by
  rw [List.getLast?_eq_getElem?]
  have hlen : (t.take n).length = n := by
    rw [List.length_take]
    omega
  rw [hlen]
  rw [List.getElem?_take]
  rw [if_pos (show n - 1 < n by omega)]
  rw [List.getElem?_eq_getElem hlt]
  rfl

theorem filter_after_sub {P : List FsDoc} {ld : Option Nat} {j : Nat}
    (hj : ∀ d ∈ P, afterDoc (some j) d = true → afterDoc ld d = true) :
    P.filter (afterDoc (some j)) = (P.filter (afterDoc ld)).filter (afterDoc (some j)) := by
  rw [List.filter_filter]
  apply List.filter_congr
  intro d hd
  cases haj : afterDoc (some j) d with
  | false => simp
  | true => simp [hj d hd haj]

theorem loop_eq_view : ∀ (fuel : Nat) (store : List FsDoc)
    (filt : Option (String × StoreValue)) (B : Nat) (L : Option Int)
    (total : Nat) (ld : Option Nat),
    idSorted store →
    (∀ d ∈ store, d.body.isSome = true) →
    getRecordsLoop store filt B L fuel total ld =
      loopView B L fuel ((store.filter (passesWhere filt)).filter (afterDoc ld)) total ld
  | 0, store, filt, B, L, total, ld, hs, hb => rfl
  | fuel + 1, store, filt, B, L, total, ld, hs, hb => by
      rw [getRecordsLoop, loopView]
      cases hbl : batchLimitFor B L total with
      | none => rfl
      | some bl =>
          simp only
          have hq : queryBatch store filt ld bl =
              ((store.filter (passesWhere filt)).filter (afterDoc ld)).take bl := rfl
          rw [hq]
          by_cases he : (((store.filter (passesWhere filt)).filter (afterDoc ld)).take bl).isEmpty
          · rw [if_pos he, if_pos he]
          · rw [if_neg he, if_neg he]
            by_cases hlt :
                (((store.filter (passesWhere filt)).filter (afterDoc ld)).take bl).length < bl
            · rw [if_pos hlt, if_pos hlt]
            · rw [if_neg hlt, if_neg hlt]
              have hble : bl ≤ ((store.filter (passesWhere filt)).filter (afterDoc ld)).length := by
                rw [List.length_take] at hlt
                omega
              have hbl1 : 1 ≤ bl := by
                rw [List.isEmpty_iff] at he
                have : (((store.filter (passesWhere filt)).filter (afterDoc ld)).take bl).length ≠ 0 := by
                  intro h0
                  exact he (List.length_eq_zero.mp h0)
                rw [List.length_take] at this
                omega
              have hidx : bl - 1 < ((store.filter (passesWhere filt)).filter (afterDoc ld)).length := by
                omega
              have hsub : ∀ d ∈ ((store.filter (passesWhere filt)).filter (afterDoc ld)).take bl,
                  d.body.isSome = true := by
                intro d hd
                have h1 : d ∈ (store.filter (passesWhere filt)).filter (afterDoc ld) :=
                  List.take_subset _ _ hd
                have h2 := List.mem_filter.mp h1
                have h3 := List.mem_filter.mp h2.1
                exact hb d h3.1
              have hfil : (((store.filter (passesWhere filt)).filter (afterDoc ld)).take bl).filter
                  (fun d => d.body.isSome) =
                  ((store.filter (passesWhere filt)).filter (afterDoc ld)).take bl :=
                List.filter_eq_self.mpr hsub
              have hlast := getLast?_take_of_le hbl1 hble hidx
              have hp22 : (processBatch
                  (((store.filter (passesWhere filt)).filter (afterDoc ld)).take bl) total ld).2.2 =
                  some (((store.filter (passesWhere filt)).filter (afterDoc ld)).get
                    ⟨bl - 1, hidx⟩).docId := by
                rw [processBatch_eq]
                simp only [lastYield, hfil, hlast]
              have hpendsort : idSorted ((store.filter (passesWhere filt)).filter (afterDoc ld)) :=
                (hs.filter _).filter _
              have hstep : (store.filter (passesWhere filt)).filter
                  (afterDoc ((processBatch
                    (((store.filter (passesWhere filt)).filter (afterDoc ld)).take bl)
                    total ld).2.2)) =
                  ((store.filter (passesWhere filt)).filter (afterDoc ld)).drop bl := by
                rw [hp22]
                have hA : (store.filter (passesWhere filt)).filter
                    (afterDoc (some (((store.filter (passesWhere filt)).filter (afterDoc ld)).get
                      ⟨bl - 1, hidx⟩).docId)) =
                    ((store.filter (passesWhere filt)).filter (afterDoc ld)).filter
                    (afterDoc (some (((store.filter (passesWhere filt)).filter (afterDoc ld)).get
                      ⟨bl - 1, hidx⟩).docId)) := by
                  apply filter_after_sub
                  intro d hd hjd
                  have hemem : ((store.filter (passesWhere filt)).filter (afterDoc ld)).get
                      ⟨bl - 1, hidx⟩ ∈ (store.filter (passesWhere filt)).filter (afterDoc ld) :=
                    List.get_mem _ _ _
                  have held := (List.mem_filter.mp hemem).2
                  cases ld with
                  | none => rfl
                  | some i =>
                      simp only [afterDoc, decide_eq_true_eq] at held hjd ⊢
                      omega
                rw [hA]
                have hB := sorted_filter_gt_drop
                  ((store.filter (passesWhere filt)).filter (afterDoc ld)) hpendsort (bl - 1) hidx
                rw [show bl - 1 + 1 = bl from by omega] at hB
                exact hB
              rw [loop_eq_view fuel store filt B L _ _ hs hb, hstep]

theorem view_no_limit : ∀ (fuel : Nat) (pend : List FsDoc) (B total : Nat) (ld : Option Nat),
    1 ≤ B → (∀ d ∈ pend, d.body.isSome = true) → pend.length / B + 1 ≤ fuel →
    (loopView B none fuel pend total ld).docs = pend ∧
    (loopView B none fuel pend total ld).requests = List.replicate (pend.length / B + 1) B ∧
    (loopView B none fuel pend total ld).completed = true
  | 0, pend, B, total, ld, hB, hbody, hf => absurd hf (Nat.not_succ_le_zero _)
  | fuel + 1, pend, B, total, ld, hB, hbody, hf => by
      rw [loopView]
      rw [show batchLimitFor B none total = some B from rfl]
      simp only
      by_cases he : (pend.take B).isEmpty
      · rw [if_pos he]
        have hpnil : pend = [] := by
          rw [List.isEmpty_iff] at he
          have hl := congrArg List.length he
          rw [List.length_take] at hl
          simp only [List.length_nil] at hl
          have : pend.length = 0 := by omega
          exact List.length_eq_zero.mp this
        subst hpnil
        refine ⟨rfl, ?_, rfl⟩
        simp
      · rw [if_neg he]
        by_cases hlt : (pend.take B).length < B
        · rw [if_pos hlt]
          have hlen : pend.length < B := by
            rw [List.length_take] at hlt
            omega
          have htake : pend.take B = pend := List.take_of_length_le (Nat.le_of_lt hlen)
          have hdiv : pend.length / B = 0 := Nat.div_eq_of_lt hlen
          rw [htake, processBatch_eq]
          refine ⟨List.filter_eq_self.mpr hbody, ?_, rfl⟩
          rw [hdiv]
          simp
        · rw [if_neg hlt]
          have hBle : B ≤ pend.length := by
            rw [List.length_take] at hlt
            omega
          have hdiv : pend.length / B = (pend.length - B) / B + 1 :=
            Nat.div_eq_sub_div (by omega) hBle
          have hdroplen : (pend.drop B).length = pend.length - B := by
            rw [List.length_drop]
          have hbody' : ∀ d ∈ pend.drop B, d.body.isSome = true := by
            intro d hd
            exact hbody d (List.drop_subset _ _ hd)
          have hf' : (pend.drop B).length / B + 1 ≤ fuel := by
            rw [hdroplen]
            omega
          have ih := view_no_limit fuel (pend.drop B) B
            (processBatch (pend.take B) total ld).2.1
            (processBatch (pend.take B) total ld).2.2 hB hbody' hf'
          have hsub : ∀ d ∈ pend.take B, d.body.isSome = true := by
            intro d hd
            exact hbody d (List.take_subset _ _ hd)
          have hp1 : (processBatch (pend.take B) total ld).1 = pend.take B := by
            rw [processBatch_eq]
            exact List.filter_eq_self.mpr hsub
          refine ⟨?_, ?_, ih.2.2⟩
          · show (processBatch (pend.take B) total ld).1 ++
              (loopView B none fuel (pend.drop B) _ _).docs = pend
            rw [hp1, ih.1, List.take_append_drop]
          · show B :: (loopView B none fuel (pend.drop B) _ _).requests =
              List.replicate (pend.length / B + 1) B
            rw [ih.2.1, hdroplen, hdiv]
            rfl

theorem requestsFor_zero (B : Nat) (hB : 1 ≤ B) : requestsFor B 0 = [] := by
  unfold requestsFor
  rw [show (0 + B - 1) / B = 0 from Nat.div_eq_of_lt (by omega)]
  rfl

theorem requestsFor_pos {B R : Nat} (hB : 1 ≤ B) (hR : 1 ≤ R) :
    requestsFor B R = min B R :: requestsFor B (R - min B R) := by
  by_cases hRB : R ≤ B
  · have hmin : min B R = R := by omega
    rw [hmin, show R - R = 0 from by omega, requestsFor_zero B hB]
    unfold requestsFor
    have hc : (R + B - 1) / B = 1 := by
      rw [show R + B - 1 = (R - 1) + B from by omega, Nat.add_div_right _ (by omega),
        Nat.div_eq_of_lt (by omega)]
    rw [hc]
    rw [show List.range 1 = [0] from rfl]
    simp only [List.map_cons, List.map_nil]
    rw [show R - 0 * B = R from by omega]
    rw [show min B R = R from by omega]
  · have hmin : min B R = B := by omega
    rw [hmin]
    unfold requestsFor
    have hc : (R + B - 1) / B = ((R - B) + B - 1) / B + 1 := by
      rw [show R + B - 1 = ((R - B) + B - 1) + B from by omega, Nat.add_div_right _ (by omega)]
    rw [hc, List.range_succ_eq_map, List.map_cons, List.map_map]
    congr 1
    · rw [show R - 0 * B = R from by omega]
      omega
    · apply List.map_congr_left
      intro i hi
      simp only [Function.comp]
      rw [Nat.succ_mul, Nat.add_comm (i * B) B, ← Nat.sub_sub]

theorem view_limit : ∀ (fuel : Nat) (pend : List FsDoc) (B L total : Nat) (ld : Option Nat),
    1 ≤ B → 1 ≤ L → (∀ d ∈ pend, d.body.isSome = true) →
    total ≤ L → L - total ≤ pend.length →
    (L - total + B - 1) / B + 1 ≤ fuel →
    (loopView B (some (L : Int)) fuel pend total ld).docs = pend.take (L - total) ∧
    (loopView B (some (L : Int)) fuel pend total ld).requests = requestsFor B (L - total) ∧
    (loopView B (some (L : Int)) fuel pend total ld).completed = true ∧
    (loopView B (some (L : Int)) fuel pend total ld).total = L
  | 0, pend, B, L, total, ld, hB, hL, hbody, htl, hlen, hf =>
      absurd hf (Nat.not_succ_le_zero _)
  | fuel + 1, pend, B, L, total, ld, hB, hL, hbody, htl, hlen, hf => by
      by_cases hR : L - total = 0
      · have hbl : batchLimitFor B (some (L : Int)) total = none := by
          unfold batchLimitFor
          simp only
          rw [if_pos (show (L : Int) ≠ 0 by omega)]
          rw [if_pos (show (L : Int) - (total : Int) ≤ 0 by omega)]
        rw [loopView, hbl]
        refine ⟨?_, ?_, rfl, ?_⟩
        · rw [hR]
          rfl
        · rw [hR, requestsFor_zero B hB]
        · show total = L
          omega
      · have hR1 : 1 ≤ L - total := by omega
        have hbl : batchLimitFor B (some (L : Int)) total = some (min B (L - total)) := by
          unfold batchLimitFor
          simp only
          rw [if_pos (show (L : Int) ≠ 0 by omega)]
          rw [if_neg (show ¬((L : Int) - (total : Int) ≤ 0) by omega)]
          rw [show ((L : Int) - (total : Int)).toNat = L - total from by omega]
        rw [loopView, hbl]
        simp only
        have hblR : min B (L - total) ≤ L - total := by omega
        have hbl1 : 1 ≤ min B (L - total) := by omega
        have he : ¬((pend.take (min B (L - total))).isEmpty = true) := by
          rw [List.isEmpty_iff]
          intro hnil
          have hl := congrArg List.length hnil
          rw [List.length_take] at hl
          simp only [List.length_nil] at hl
          omega
        rw [if_neg he]
        have htakelen : (pend.take (min B (L - total))).length = min B (L - total) := by
          rw [List.length_take]
          omega
        have hlt : ¬((pend.take (min B (L - total))).length < min B (L - total)) := by
          omega
        rw [if_neg hlt]
        have hsub : ∀ d ∈ pend.take (min B (L - total)), d.body.isSome = true := by
          intro d hd
          exact hbody d (List.take_subset _ _ hd)
        have hp1 : (processBatch (pend.take (min B (L - total))) total ld).1 =
            pend.take (min B (L - total)) := by
          rw [processBatch_eq]
          exact List.filter_eq_self.mpr hsub
        have hp21 : (processBatch (pend.take (min B (L - total))) total ld).2.1 =
            total + min B (L - total) := by
          rw [processBatch_eq]
          simp only
          rw [List.filter_eq_self.mpr hsub, htakelen]
        have hbody' : ∀ d ∈ pend.drop (min B (L - total)), d.body.isSome = true := by
          intro d hd
          exact hbody d (List.drop_subset _ _ hd)
        have hdroplen : (pend.drop (min B (L - total))).length =
            pend.length - min B (L - total) := by
          rw [List.length_drop]
        have hdiv : (L - total + B - 1) / B =
            (L - (total + min B (L - total)) + B - 1) / B + 1 := by
          by_cases hRB : L - total ≤ B
          · have e1 : L - (total + min B (L - total)) = 0 := by omega
            rw [e1]
            have e2 : (0 + B - 1) / B = 0 := Nat.div_eq_of_lt (by omega)
            rw [e2]
            have e3 : (L - total + B - 1) / B = 1 := by
              rw [show L - total + B - 1 = (L - total - 1) + B from by omega]
              rw [Nat.add_div_right _ (show 0 < B by omega)]
              rw [Nat.div_eq_of_lt (show L - total - 1 < B by omega)]
            rw [e3]
          · have e1 : L - (total + min B (L - total)) + B - 1 = L - total - 1 := by omega
            rw [e1]
            have e2 : L - total + B - 1 = (L - total - 1) + B := by omega
            rw [e2, Nat.add_div_right _ (show 0 < B by omega)]
        have ih := view_limit fuel (pend.drop (min B (L - total))) B L
          (total + min B (L - total)) (processBatch (pend.take (min B (L - total))) total ld).2.2
          hB hL hbody' (by omega) (by rw [hdroplen]; omega) (by omega)
        rw [← hp21] at ih
        refine ⟨?_, ?_, ih.2.2.1, ih.2.2.2⟩
        · show (processBatch (pend.take (min B (L - total))) total ld).1 ++
            (loopView B (some (L : Int)) fuel (pend.drop (min B (L - total))) _ _).docs =
            pend.take (L - total)
          rw [hp1, ih.1, hp21]
          rw [show L - (total + min B (L - total)) = (L - total) - min B (L - total) from by omega]
          rw [← List.take_add]
          congr 1
          omega
        · show min B (L - total) ::
            (loopView B (some (L : Int)) fuel (pend.drop (min B (L - total))) _ _).requests =
            requestsFor B (L - total)
          rw [ih.2.1, hp21]
          rw [show L - (total + min B (L - total)) = (L - total) - min B (L - total) from by omega]
          rw [requestsFor_pos hB hR1]

theorem lookupTag_append : ∀ (ft : List (String × TypeTag)) (k : String) (t : TypeTag)
    (f : String),
    lookupTag (ft ++ [(k, t)]) f =
      match lookupTag ft f with
      | some t' => some t'
      | none => if k = f then some t else none
  | [], k, t, f => by simp [lookupTag]
  | (k', t') :: rest, k, t, f => by
      by_cases hk : k' = f
      · simp [lookupTag, hk]
      · simp only [List.cons_append, lookupTag, if_neg hk]
        exact lookupTag_append rest k t f

theorem lookupTag_addDocFields : ∀ (dd : List (String × StoreValue))
    (ft : List (String × TypeTag)) (f : String),
    lookupTag (addDocFields ft dd) f =
      match lookupTag ft f with
      | some t => some t
      | none => (lookupField dd f).map infer_type
  | [], ft, f => by
      cases h : lookupTag ft f <;> simp [addDocFields, h, lookupField]
  | (k, v) :: rest, ft, f => by
      by_cases hk : (lookupTag ft k).isSome
      · rw [show addDocFields ft ((k, v) :: rest) = addDocFields ft rest from by
          rw [addDocFields, if_pos hk]]
        rw [lookupTag_addDocFields rest ft f]
        by_cases hkf : k = f
        · subst hkf
          cases h : lookupTag ft k with
          | none => rw [h] at hk; simp at hk
          | some t => simp [h]
        · cases h : lookupTag ft f <;> simp [h, lookupField, hkf]
      · rw [show addDocFields ft ((k, v) :: rest) =
            addDocFields (ft ++ [(k, infer_type v)]) rest from by
          rw [addDocFields, if_neg hk]]
        rw [lookupTag_addDocFields rest (ft ++ [(k, infer_type v)]) f, lookupTag_append]
        by_cases hkf : k = f
        · subst hkf
          have hnone : lookupTag ft k = none := by
            cases h : lookupTag ft k with
            | none => rfl
            | some t => rw [h] at hk; simp at hk
          simp [hnone, lookupField]
        · cases h : lookupTag ft f <;> simp [h, lookupField, hkf]

theorem lookupTag_inferFieldTypesFrom : ∀ (docs : List DocDict)
    (ft : List (String × TypeTag)) (f : String),
    lookupTag (inferFieldTypesFrom ft docs) f =
      match lookupTag ft f with
      | some t => some t
      | none => (firstFieldValue docs f).map infer_type
  | [], ft, f => by
      cases h : lookupTag ft f <;> simp [inferFieldTypesFrom, firstFieldValue, h]
  | none :: rest, ft, f => by
      rw [show inferFieldTypesFrom ft (none :: rest) = inferFieldTypesFrom ft rest from rfl]
      rw [lookupTag_inferFieldTypesFrom rest ft f]
      cases h : lookupTag ft f <;> simp [h, firstFieldValue]
  | some dd :: rest, ft, f => by
      by_cases hdd : dd.isEmpty
      · have hnil : dd = [] := List.isEmpty_iff.mp hdd
        subst hnil
        rw [show inferFieldTypesFrom ft (some [] :: rest) = inferFieldTypesFrom ft rest from by
          rw [inferFieldTypesFrom]
          rfl]
        rw [lookupTag_inferFieldTypesFrom rest ft f]
        cases h : lookupTag ft f <;> simp [h, firstFieldValue, lookupField]
      · rw [show inferFieldTypesFrom ft (some dd :: rest) =
            inferFieldTypesFrom (addDocFields ft dd) rest from by
          rw [inferFieldTypesFrom, if_neg (by simp [hdd])]]
        rw [lookupTag_inferFieldTypesFrom rest (addDocFields ft dd) f, lookupTag_addDocFields]
        cases h : lookupTag ft f with
        | some t => simp [h]
        | none =>
            simp only [h]
            cases hv : lookupField dd f with
            | some v => simp [hv, firstFieldValue]
            | none => simp [hv, firstFieldValue]

theorem buildBaseFilter_none (cfg : StreamConfig) : buildBaseFilter cfg none = none := by
  unfold buildBaseFilter
  cases cfg.replication_key <;> rfl

/-- C4: value normalization (`_convert_value`) is total on the closed
union of store values — it is a total function, so it never raises — and
for every input, including every recognized native composite type and
the `vCustom` fallback for unrecognized structured types, the result is
a JSON-safe value. -/
theorem c4_normalize_total_and_safe : ∀ v : StoreValue, jsonSafe (convert_value v) = true :=
  convert_value_safe

/-- C9: value normalization is the identity on JSON-safe inputs: any
value built only from strings, integers, floats, booleans, null and
nested plain dicts/lists is returned unchanged by `_convert_value`. -/
theorem c9_normalize_identity : ∀ v : StoreValue, jsonSafe v = true → convert_value v = v :=
  convert_value_id

theorem c9_normalize_identity_witness :
    jsonSafe (StoreValue.vDict
      [("a", .vList [.vInt 1, .vStr "x", .vNull]), ("b", .vBool true)]) = true ∧
    convert_value (StoreValue.vDict
      [("a", .vList [.vInt 1, .vStr "x", .vNull]), ("b", .vBool true)]) =
      StoreValue.vDict [("a", .vList [.vInt 1, .vStr "x", .vNull]), ("b", .vBool true)] :=
  ⟨rfl, c9_normalize_identity _ rfl⟩

/-- C5: schema inference is deterministic in sample order (it is a pure
function of the sample-document list) and first-seen-wins: for every
field, the inferred mapping binds it to `_infer_type` of the value in
the first sampled document (in sample order) containing the field, and
to nothing when no sampled document contains it — so a later document
never overrides an already-inferred type. -/
theorem c5_inference_deterministic_first_seen :
    ∀ (docs : List DocDict) (f : String),
      inferFieldTypes docs = inferFieldTypes docs ∧
      lookupTag (inferFieldTypes docs) f = (firstFieldValue docs f).map infer_type := by
  intro docs f
  refine ⟨rfl, ?_⟩
  rw [inferFieldTypes, lookupTag_inferFieldTypesFrom]
  rfl

/-- C10: a fetched document whose `to_dict()` is `None` is skipped by
the per-batch loop: the yielded documents of a batch are exactly the
body-present ones, `total_extracted` grows only by their number, and
`last_doc` advances to the last body-present document (staying unchanged
when every document of the batch was skipped); consequently every
document yielded by the whole pagination loop has a present body, and
the next batch query resumes after the last body-present document. -/
theorem c10_absent_body_skip :
    (∀ (ds : List FsDoc) (total : Nat) (ld : Option Nat),
      processBatch ds total ld =
        (ds.filter (fun d => d.body.isSome),
         total + (ds.filter (fun d => d.body.isSome)).length,
         lastYield ds ld)) ∧
    (∀ (fuel : Nat) (store : List FsDoc) (filt : Option (String × StoreValue))
      (B : Nat) (L : Option Int) (total : Nat) (ld : Option Nat),
      ((getRecordsLoop store filt B L fuel total ld).docs.all
        (fun d => d.body.isSome)) = true) := by
  refine ⟨processBatch_eq, ?_⟩
  intro fuel store filt B L total ld
  apply List.all_eq_true.mpr
  intro d hd
  exact (loop_docs_mem fuel store filt B L total ld d hd).2.2

/-- C1: when a replication key is configured and a truthy stored cursor
value parses to `v`, every document yielded by `get_records` carries a
replication-key field whose value satisfies the Firestore `>` comparison
against `v` (the base `where` filter applies to every batch); and when
no stored value exists, no replication-key filter is built. -/
theorem c1_resume_strictly_greater (store : List FsDoc) (cfg : StreamConfig)
    (stateValue : String) (k : String) (v : StoreValue) (fuel : Nat)
    (hk : cfg.replication_key = some k)
    (hv : get_starting_replication_key_value cfg (some stateValue) = some v)
    (htruthy : truthyVal v = true) :
    ((get_records store cfg (some stateValue) fuel).docs.all
      (fun d => match getField d k with
        | some fv => fsGt fv v
        | none => false)) = true ∧
    buildBaseFilter cfg none = none := by
  refine ⟨?_, buildBaseFilter_none cfg⟩
  have hfilt : buildBaseFilter cfg (some stateValue) = some (k, v) := by
    unfold buildBaseFilter
    rw [hk, hv]
    simp only
    rw [if_pos htruthy]
  apply List.all_eq_true.mpr
  intro d hd
  rw [get_records, hfilt] at hd
  exact (loop_docs_mem fuel store (some (k, v)) cfg.batch_size cfg.limit 0 none d hd).2.1

theorem c1_resume_strictly_greater_witness :
    ((⟨some "u", "string", none, 2, none⟩ : StreamConfig).replication_key = some "u" ∧
      get_starting_replication_key_value ⟨some "u", "string", none, 2, none⟩ (some "m") =
        some (.vStr "m") ∧
      truthyVal (.vStr "m") = true) ∧
    ((get_records [⟨1, some [("u", .vStr "z")]⟩] ⟨some "u", "string", none, 2, none⟩
        (some "m") 5).docs.all
      (fun d => match getField d "u" with
        | some fv => fsGt fv (.vStr "m")
        | none => false)) = true :=
  ⟨⟨rfl, rfl, by decide⟩,
    (c1_resume_strictly_greater [⟨1, some [("u", .vStr "z")]⟩]
      ⟨some "u", "string", none, 2, none⟩ "m" "u" (.vStr "m") 5 rfl rfl (by decide)).1⟩

/-- C7 counterexample: with both a credentials file path and a base64
credential string configured, `_get_firestore_client` uses the base64
source, not the file — the claimed path-first precedence is false. -/
theorem c7_counterexample :
    resolveCredentialSource (some "/tmp/creds.json") none (some "eyJ9") =
      CredSource.fromBase64 ∧
    CredSource.fromBase64 ≠ CredSource.fromFile :=
  ⟨rfl, by decide⟩

/-- C7 (amended): credential sources are resolved with exactly one
taking precedence in the order base64-encoded JSON string first, then
inline JSON string, then filesystem path; default ambient credentials
are used only when none of the three is set to a truthy (non-empty)
value. -/
theorem c7_amended_precedence (credentials_path credentials_json credentials_base64 :
    Option String) :
    (truthyStr credentials_base64 = true →
      resolveCredentialSource credentials_path credentials_json credentials_base64 =
        CredSource.fromBase64) ∧
    (truthyStr credentials_base64 = false → truthyStr credentials_json = true →
      resolveCredentialSource credentials_path credentials_json credentials_base64 =
        CredSource.fromJson) ∧
    (truthyStr credentials_base64 = false → truthyStr credentials_json = false →
      truthyStr credentials_path = true →
      resolveCredentialSource credentials_path credentials_json credentials_base64 =
        CredSource.fromFile) ∧
    (truthyStr credentials_base64 = false → truthyStr credentials_json = false →
      truthyStr credentials_path = false →
      resolveCredentialSource credentials_path credentials_json credentials_base64 =
        CredSource.ambient) := by
  refine ⟨?_, ?_, ?_, ?_⟩
  · intro h
    simp [resolveCredentialSource, h]
  · intro hb hj
    simp [resolveCredentialSource, hb, hj]
  · intro hb hj hp
    simp [resolveCredentialSource, hb, hj, hp]
  · intro hb hj hp
    simp [resolveCredentialSource, hb, hj, hp]

theorem c7_amended_precedence_witness :
    truthyStr (none : Option String) = false ∧
    truthyStr (some "credjson") = true ∧
    resolveCredentialSource (some "/tmp/creds.json") (some "credjson") none =
      CredSource.fromJson :=
  ⟨rfl, by decide,
    (c7_amended_precedence (some "/tmp/creds.json") (some "credjson") none).2.1 rfl (by decide)⟩

theorem utf8DecodeBytes_ascii (mode : Utf8ErrorMode) : ∀ bs : List Nat,
    bs.all (fun b => b < 128) = true → utf8DecodeBytes mode bs = bs.map Char.ofNat
  | [] => fun _ => rfl
  | b :: rest => fun h => by
      have hb : b < 128 := by
        have hh := List.all_eq_true.mp h b (by simp)
        simpa using hh
      have hrest : rest.all (fun b => b < 128) = true := by
        apply List.all_eq_true.mpr
        intro x hx
        exact List.all_eq_true.mp h x (by simp [hx])
      have hl : leadStep mode b = ([Char.ofNat b], none) := by
        unfold leadStep
        rw [if_pos hb]
      show (leadStep mode b).1 ++ utf8DecodeLoop mode (leadStep mode b).2 rest =
        (b :: rest).map Char.ofNat
      rw [hl]
      rw [show utf8DecodeLoop mode none rest = rest.map Char.ofNat from
        utf8DecodeBytes_ascii mode rest hrest]
      rfl

/-- C8 counterexample: on the single invalid byte `0xFF`,
`_convert_value` returns the empty string (the byte is dropped by
`errors="ignore"`), whereas decoding with replacement would return
U+FFFD — so "invalid byte sequences replaced" is false for the code. -/
theorem c8_counterexample :
    convert_value (.vBytes [255]) = .vStr "" ∧
    String.mk (utf8DecodeBytes Utf8ErrorMode.replaceInvalid [255]) = "�" ∧
    StoreValue.vStr "" ≠
      .vStr (String.mk (utf8DecodeBytes Utf8ErrorMode.replaceInvalid [255])) := by
  have hdrop : utf8DecodeBytes Utf8ErrorMode.dropInvalid [255] = [] := rfl
  have hrep : utf8DecodeBytes Utf8ErrorMode.replaceInvalid [255] = ['�'] := rfl
  refine ⟨?_, ?_, ?_⟩
  · show StoreValue.vStr (String.mk (utf8DecodeBytes Utf8ErrorMode.dropInvalid [255])) =
      .vStr ""
    rw [hdrop]
  · rw [hrep]
  · rw [hrep]
    intro hcontra
    injection hcontra with h'
    exact absurd h' (by decide)

/-- C8 (amended): for every bytes input, `_convert_value` returns the
text obtained by UTF-8-decoding the bytes with invalid byte sequences
dropped (Python `errors="ignore"`), rather than raising; on all-ASCII
input the decoding is the byte-for-byte character string. -/
theorem c8_amended_bytes_decode : ∀ bs : List Nat,
    convert_value (.vBytes bs) =
      .vStr (String.mk (utf8DecodeBytes Utf8ErrorMode.dropInvalid bs)) ∧
    (bs.all (fun b => b < 128) = true →
      utf8DecodeBytes Utf8ErrorMode.dropInvalid bs = bs.map Char.ofNat) :=
  fun bs => ⟨rfl, utf8DecodeBytes_ascii _ bs⟩

theorem c8_amended_bytes_decode_witness :
    ([104, 105] : List Nat).all (fun b => b < 128) = true ∧
    utf8DecodeBytes Utf8ErrorMode.dropInvalid [104, 105] = [104, 105].map Char.ofNat :=
  ⟨by decide, (c8_amended_bytes_decode [104, 105]).2 (by decide)⟩

/-- C6 counterexample: a stream whose field-schema configuration is set
to the explicit empty mapping still samples the collection (the Python
`if self.schema_config:` truthiness test treats an empty dict as
absent), so "no sampling of the collection is invoked" is false as
stated. -/
theorem c6_counterexample :
    ((⟨none, "timestamp", none, 500, some []⟩ : StreamConfig).schema_config = some []) ∧
    (schemaOnce ⟨none, "timestamp", none, 500, some []⟩
      [some [("x", .vInt 1)]] none).2.2 = true :=
  ⟨rfl, rfl⟩

/-- C6 (amended): for every stream whose explicit field-schema
configuration is set to a non-empty mapping, the declared schema is
built by `_build_schema_from_config` alone — independent of any sample
documents, with sampling not invoked — unrecognized type-tag strings map
to the string type, and a cached schema is returned as-is on every later
call. -/
theorem c6_amended_schema_config (cfg : StreamConfig) (sc : List (String × String))
    (sampleDocs sampleDocs' : List DocDict) (s : SchemaDict)
    (hsc : cfg.schema_config = some sc) (hne : sc ≠ []) :
    schemaOnce cfg sampleDocs none =
      (build_schema_from_config cfg, some (build_schema_from_config cfg), false) ∧
    schemaOnce cfg sampleDocs none = schemaOnce cfg sampleDocs' none ∧
    schemaOnce cfg sampleDocs (some s) = (s, some s, false) ∧
    (∀ ts : String, lookupTag type_map (lowerStr ts) = none →
      type_string_to_singer_type ts = .string) := by
  have h1 : ∀ docs : List DocDict, schemaOnce cfg docs none =
      (build_schema_from_config cfg, some (build_schema_from_config cfg), false) := by
    intro docs
    unfold schemaOnce
    rw [hsc]
    simp only
    rw [if_neg (show ¬(sc.isEmpty = true) by simp [List.isEmpty_iff, hne])]
  refine ⟨h1 sampleDocs, by rw [h1, h1], rfl, ?_⟩
  intro ts hts
  unfold type_string_to_singer_type
  rw [hts]
  rfl

theorem c6_amended_schema_config_witness :
    ((⟨none, "timestamp", none, 500, some [("a", "Integer"), ("b", "banana")]⟩ :
      StreamConfig).schema_config = some [("a", "Integer"), ("b", "banana")]) ∧
    ([("a", "Integer"), ("b", "banana")] : List (String × String)) ≠ [] ∧
    schemaOnce ⟨none, "timestamp", none, 500, some [("a", "Integer"), ("b", "banana")]⟩
      [some [("x", .vInt 1)]] none =
      (build_schema_from_config
        ⟨none, "timestamp", none, 500, some [("a", "Integer"), ("b", "banana")]⟩,
       some (build_schema_from_config
        ⟨none, "timestamp", none, 500, some [("a", "Integer"), ("b", "banana")]⟩),
       false) :=
  ⟨rfl, by simp,
    (c6_amended_schema_config
      ⟨none, "timestamp", none, 500, some [("a", "Integer"), ("b", "banana")]⟩
      [("a", "Integer"), ("b", "banana")] [some [("x", .vInt 1)]] [] ⟨[], true⟩
      rfl (by simp)).1⟩

/-- C2 counterexample: a collection of N = 2 documents with batch size
B = 2 and no limit: the loop issues 2 batch queries (the second returns
zero documents), but `ceil(N/B) = 1` — the claimed query count is false
when B divides N. -/
theorem c2_counterexample :
    (get_records [⟨1, some []⟩, ⟨2, some []⟩]
      ⟨none, "timestamp", none, 2, none⟩ none 5).requests.length = 2 ∧
    (2 : Nat) ≠ (2 + 2 - 1) / 2 :=
  ⟨rfl, by decide⟩

/-- C2 (amended): for every id-sorted collection of size N with batch
size B ≥ 1, no limit and no resume filter, `get_records` yields exactly
the N documents (in order) and issues `⌊N/B⌋ + 1` batch queries — which
equals `ceil(N/B)` when B does not divide N, and `ceil(N/B) + 1` (one
trailing batch smaller than requested, possibly empty) when B divides N,
including N = 0 — terminating on the first batch that returns fewer
documents than requested. -/
theorem c2_amended_pagination (store : List FsDoc) (cfg : StreamConfig) (B fuel : Nat)
    (hB : cfg.batch_size = B) (hB1 : 1 ≤ B) (hlim : cfg.limit = none)
    (hsort : idSorted store) (hbody : ∀ d ∈ store, d.body.isSome = true)
    (hfuel : store.length / B + 1 ≤ fuel) :
    (get_records store cfg none fuel).docs = store ∧
    (get_records store cfg none fuel).requests.length = store.length / B + 1 ∧
    (get_records store cfg none fuel).completed = true := by
  unfold get_records
  rw [buildBaseFilter_none, hB, hlim]
  rw [loop_eq_view fuel store none B none 0 none hsort hbody]
  have hfil1 : List.filter (passesWhere none) store = store :=
    List.filter_eq_self.mpr (fun d _ => rfl)
  have hfil2 : List.filter (afterDoc none) store = store :=
    List.filter_eq_self.mpr (fun d _ => rfl)
  rw [hfil1, hfil2]
  have h := view_no_limit fuel store B 0 none hB1 hbody hfuel
  refine ⟨h.1, ?_, h.2.2⟩
  rw [h.2.1, List.length_replicate]

theorem c2_amended_pagination_witness :
    idSorted [⟨1, some []⟩, ⟨2, some []⟩, ⟨3, some []⟩] ∧
    (get_records [⟨1, some []⟩, ⟨2, some []⟩, ⟨3, some []⟩]
      ⟨none, "timestamp", none, 2, none⟩ none 9).docs =
      [⟨1, some []⟩, ⟨2, some []⟩, ⟨3, some []⟩] ∧
    (get_records [⟨1, some []⟩, ⟨2, some []⟩, ⟨3, some []⟩]
      ⟨none, "timestamp", none, 2, none⟩ none 9).requests.length = 3 / 2 + 1 ∧
    (get_records [⟨1, some []⟩, ⟨2, some []⟩, ⟨3, some []⟩]
      ⟨none, "timestamp", none, 2, none⟩ none 9).completed = true := by
  have h := c2_amended_pagination [⟨1, some []⟩, ⟨2, some []⟩, ⟨3, some []⟩]
    ⟨none, "timestamp", none, 2, none⟩ 2 9 rfl (by decide) rfl (by decide)
    (by decide) (by decide)
  exact ⟨by decide, h.1, h.2.1, h.2.2⟩

/-- C3: with a configured limit `1 ≤ L < N` over an id-sorted,
body-present collection with batch size B ≥ 1 and no resume filter,
`get_records` yields exactly the first L documents, the sequence of
requested batch sizes is `min B (L - i·B)` for query i (each at most B,
i.e. at most the remaining quota), exactly `ceil(L/B)` queries are
issued, and the run completes — no further query is issued once the
quota is exhausted. -/
theorem c3_limit_enforcement (store : List FsDoc) (cfg : StreamConfig) (B L fuel : Nat)
    (hB : cfg.batch_size = B) (hB1 : 1 ≤ B) (hL1 : 1 ≤ L)
    (hlim : cfg.limit = some (L : Int)) (hLN : L < store.length)
    (hsort : idSorted store) (hbody : ∀ d ∈ store, d.body.isSome = true)
    (hfuel : (L + B - 1) / B + 1 ≤ fuel) :
    (get_records store cfg none fuel).docs.length = L ∧
    (get_records store cfg none fuel).docs = store.take L ∧
    (get_records store cfg none fuel).requests = requestsFor B L ∧
    (get_records store cfg none fuel).requests.length = (L + B - 1) / B ∧
    (∀ r ∈ (get_records store cfg none fuel).requests, r ≤ B) ∧
    (get_records store cfg none fuel).completed = true := by
  unfold get_records
  rw [buildBaseFilter_none, hB, hlim]
  rw [loop_eq_view fuel store none B (some (L : Int)) 0 none hsort hbody]
  have hfil1 : List.filter (passesWhere none) store = store :=
    List.filter_eq_self.mpr (fun d _ => rfl)
  have hfil2 : List.filter (afterDoc none) store = store :=
    List.filter_eq_self.mpr (fun d _ => rfl)
  rw [hfil1, hfil2]
  have h := view_limit fuel store B L 0 none hB1 hL1 hbody (by omega) (by omega)
    (by rw [Nat.sub_zero]; exact hfuel)
  rw [Nat.sub_zero] at h
  refine ⟨?_, h.1, h.2.1, ?_, ?_, h.2.2.1⟩
  · rw [h.1, List.length_take]
    omega
  · rw [h.2.1]
    unfold requestsFor
    rw [List.length_map, List.length_range]
  · rw [h.2.1]
    intro r hr
    unfold requestsFor at hr
    rcases List.mem_map.mp hr with ⟨i, hi, hri⟩
    rw [← hri]
    exact min_le_left _ _

theorem c3_limit_enforcement_witness :
    idSorted [⟨1, some []⟩, ⟨2, some []⟩, ⟨3, some []⟩] ∧
    (get_records [⟨1, some []⟩, ⟨2, some []⟩, ⟨3, some []⟩]
      ⟨none, "timestamp", some 2, 2, none⟩ none 9).docs.length = 2 ∧
    (get_records [⟨1, some []⟩, ⟨2, some []⟩, ⟨3, some []⟩]
      ⟨none, "timestamp", some 2, 2, none⟩ none 9).requests = requestsFor 2 2 ∧
    (get_records [⟨1, some []⟩, ⟨2, some []⟩, ⟨3, some []⟩]
      ⟨none, "timestamp", some 2, 2, none⟩ none 9).completed = true := by
  have h := c3_limit_enforcement [⟨1, some []⟩, ⟨2, some []⟩, ⟨3, some []⟩]
    ⟨none, "timestamp", some 2, 2, none⟩ 2 2 9 rfl (by decide) (by decide) rfl
    (by decide) (by decide) (by decide) (by decide)
  exact ⟨by decide, h.1, h.2.2.1, h.2.2.2.2.2⟩
